import Mathlib

/-!
Verification of the Vivisection Engine protection core against its
specification.  The development shallowly embeds, over `Nat` with explicit
reduction modulo `2 ^ 32`, the three components the spec singles out:

* the cipher layer (`XTEACipher`, `AESLikeCipher`) and the encrypted-string
  container from `src/modules/string_crypt.hpp`,
* the bytecode virtual machine from
  `src/include/vivisect/modules/vm_engine.hpp` (the variant with the
  register-bounds fault path; its handlers and mutation routine are textually
  identical to the `src/modules/vm_engine.hpp` variant),
* the export resolver `APIResolver::find_export` from
  `src/include/vivisect/api/resolver.hpp`.

All machine words are `Nat` values; 32-bit wrap-around of the C++ `uint32_t`
arithmetic is written out as `% 2 ^ 32`.
-/

namespace Vivisect

/-- The constant `2 ^ 32`, the modulus of all `uint32_t` arithmetic in the source. -/
def U32 : Nat := 2 ^ 32

/-- Wrapping 32-bit addition, the meaning of `+` / `+=` on `uint32_t`. -/
def add32 (a b : Nat) : Nat := (a + b) % U32

/-- Wrapping 32-bit subtraction, the meaning of `-` / `-=` on `uint32_t`. -/
def sub32 (a b : Nat) : Nat := (a + (U32 - b % U32)) % U32

/-- Wrapping 32-bit left shift, the meaning of `<<` on `uint32_t`. -/
def shl32 (x n : Nat) : Nat := (x <<< n) % U32

theorem U32_pos : 0 < U32 := Nat.two_pow_pos 32

theorem add32_lt (a b : Nat) : add32 a b < U32 := Nat.mod_lt _ U32_pos

theorem sub32_lt (a b : Nat) : sub32 a b < U32 := Nat.mod_lt _ U32_pos

/-- Wrapping subtraction undoes wrapping addition of the same operand. -/
theorem sub32_add32 (a b : Nat) (ha : a < U32) : sub32 (add32 a b) b = a := by
  unfold sub32 add32
  have hb : b % U32 < U32 := Nat.mod_lt _ U32_pos
  have hdm : U32 * (b / U32) + b % U32 = b := Nat.div_add_mod b U32
  have hmul : U32 * (b / U32 + 1) = U32 * (b / U32) + U32 := by ring
  rw [Nat.mod_add_mod]
  have h : a + b + (U32 - b % U32) = a + U32 * (b / U32 + 1) := by omega
  rw [h, Nat.add_mul_mod_self_left, Nat.mod_eq_of_lt ha]

-- ===========================================================================
-- Cipher A: XTEACipher (src/modules/string_crypt.hpp, lines 20-58)
-- ===========================================================================

namespace XTEACipher

/-- The constant `XTEACipher::DELTA`. -/
def DELTA : Nat := 0x9E3779B9

/-- The constant `XTEACipher::ROUNDS`. -/
def ROUNDS : Nat := 32

/-- The value added into `v0`:
`(((v1 << 4) ^ (v1 >> 5)) + v1) ^ (sum + key[sum & 3])`. -/
def mix0 (key : Nat → Nat) (v sum : Nat) : Nat :=
  (add32 (shl32 v 4 ^^^ (v >>> 5)) v) ^^^ (add32 sum (key (sum &&& 3)))

/-- The value added into `v1`:
`(((v0 << 4) ^ (v0 >> 5)) + v0) ^ (sum + key[(sum >> 11) & 3])`. -/
def mix1 (key : Nat → Nat) (v sum : Nat) : Nat :=
  (add32 (shl32 v 4 ^^^ (v >>> 5)) v) ^^^ (add32 sum (key ((sum >>> 11) &&& 3)))

/-- One iteration of the `encrypt` loop body: `v0 += mix0; sum += DELTA;
`v1 += mix1` (with `mix1` taken at the updated `v0` and `sum`). -/
def encRound (key : Nat → Nat) (sum : Nat) : Nat × Nat → Nat × Nat :=
  fun p =>
    let v0 := add32 p.1 (mix0 key p.2 sum)
    let v1 := add32 p.2 (mix1 key v0 (add32 sum DELTA))
    (v0, v1)

/-- One iteration of the `decrypt` loop body: `v1 -= mix1; sum -= DELTA;
`v0 -= mix0` (with `mix0` taken at the updated `v1` and `sum`). -/
def decRound (key : Nat → Nat) (sum : Nat) : Nat × Nat → Nat × Nat :=
  fun p =>
    let v1 := sub32 p.2 (mix1 key p.1 sum)
    let v0 := sub32 p.1 (mix0 key v1 (sub32 sum DELTA))
    (v0, v1)

/-- The `encrypt` round loop, running `n` rounds from running sum `sum`. -/
def encRounds (key : Nat → Nat) : Nat → Nat → Nat × Nat → Nat × Nat
  | 0, _, p => p
  | n + 1, sum, p => encRounds key n (add32 sum DELTA) (encRound key sum p)

/-- The `decrypt` round loop, running `n` rounds from running sum `sum`. -/
def decRounds (key : Nat → Nat) : Nat → Nat → Nat × Nat → Nat × Nat
  | 0, _, p => p
  | n + 1, sum, p => decRounds key n (sub32 sum DELTA) (decRound key sum p)

/-- Function `XTEACipher::encrypt`: 32 rounds starting from `sum = 0`. -/
def encrypt (key : Nat → Nat) (p : Nat × Nat) : Nat × Nat :=
  encRounds key ROUNDS 0 p

/-- Function `XTEACipher::decrypt`: 32 rounds starting from `sum = DELTA * ROUNDS`
(computed in `uint32_t`). -/
def decrypt (key : Nat → Nat) (p : Nat × Nat) : Nat × Nat :=
  decRounds key ROUNDS ((DELTA * ROUNDS) % U32) p

/-- The running sum after `n` encryption rounds from `sum`. -/
def sumAfter : Nat → Nat → Nat
  | 0, sum => sum
  | n + 1, sum => add32 (sumAfter n sum) DELTA

theorem sumAfter_shift (n sum : Nat) :
    sumAfter n (add32 sum DELTA) = add32 (sumAfter n sum) DELTA := by
  induction n generalizing sum with
  | zero => rfl
  | succ n ih => simp only [sumAfter, ih]

theorem sumAfter_lt (n : Nat) (sum : Nat) (h : sum < U32) :
    sumAfter n sum < U32 := by
  cases n with
  | zero => exact h
  | succ n => exact add32_lt _ _

theorem encRounds_succ (key : Nat → Nat) (n : Nat) :
    ∀ sum p, encRounds key (n + 1) sum p =
      encRound key (sumAfter n sum) (encRounds key n sum p) := by
  induction n with
  | zero => intro sum p; rfl
  | succ n ih =>
    intro sum p
    show encRounds key (n + 1) (add32 sum DELTA) (encRound key sum p) = _
    rw [ih (add32 sum DELTA) (encRound key sum p), sumAfter_shift]
    rfl

theorem encRounds_fst_lt (key : Nat → Nat) (n : Nat) (sum : Nat) (p : Nat × Nat)
    (h0 : p.1 < U32) : (encRounds key n sum p).1 < U32 := by
  cases n with
  | zero => exact h0
  | succ n => rw [encRounds_succ]; exact add32_lt _ _

theorem encRounds_snd_lt (key : Nat → Nat) (n : Nat) (sum : Nat) (p : Nat × Nat)
    (h1 : p.2 < U32) : (encRounds key n sum p).2 < U32 := by
  cases n with
  | zero => exact h1
  | succ n => rw [encRounds_succ]; exact add32_lt _ _

/-- One decryption round exactly undoes one encryption round. -/
theorem decRound_encRound (key : Nat → Nat) (sum : Nat) (p : Nat × Nat)
    (h0 : p.1 < U32) (h1 : p.2 < U32) (hs : sum < U32) :
    decRound key (add32 sum DELTA) (encRound key sum p) = p := by
  obtain ⟨v0, v1⟩ := p
  simp only [encRound, decRound]
  rw [sub32_add32 _ _ h1, sub32_add32 _ _ hs, sub32_add32 _ _ h0]

theorem decRounds_encRounds (key : Nat → Nat) :
    ∀ n sum p, sum < U32 → p.1 < U32 → p.2 < U32 →
      decRounds key n (sumAfter n sum) (encRounds key n sum p) = p := by
  intro n
  induction n with
  | zero => intro sum p _ _ _; rfl
  | succ n ih =>
    intro sum p hs h0 h1
    rw [encRounds_succ]
    show decRounds key n
        (sub32 (sumAfter (n + 1) sum) DELTA)
        (decRound key (sumAfter (n + 1) sum)
          (encRound key (sumAfter n sum) (encRounds key n sum p))) = p
    have hsn : sumAfter n sum < U32 := sumAfter_lt n sum hs
    have hse : sumAfter (n + 1) sum = add32 (sumAfter n sum) DELTA := rfl
    rw [hse, sub32_add32 _ _ hsn,
      decRound_encRound key (sumAfter n sum) _
        (encRounds_fst_lt key n sum p h0)
        (encRounds_snd_lt key n sum p h1) hsn]
    exact ih sum p hs h0 h1

/-- The decryption start sum `DELTA * ROUNDS` (in `uint32_t`) is the running
sum left behind by 32 encryption rounds from 0. -/
theorem sum_final : (DELTA * ROUNDS) % U32 = sumAfter ROUNDS 0 := by decide

theorem xtea_decrypt_encrypt (key : Nat → Nat) (p : Nat × Nat)
    (h0 : p.1 < U32) (h1 : p.2 < U32) :
    decrypt key (encrypt key p) = p := by
  unfold decrypt encrypt
  rw [sum_final]
  exact decRounds_encRounds key ROUNDS 0 p U32_pos h0 h1

end XTEACipher

-- ===========================================================================
-- Cipher B: AESLikeCipher (src/modules/string_crypt.hpp, lines 64-130)
-- ===========================================================================

namespace AESLikeCipher

/-- The constant `AESLikeCipher::ROUNDS`. -/
def ROUNDS : Nat := 8

/-- Function `AESLikeCipher::rotate_left` on `uint32_t`:
`(x << bits) | (x >> (32 - bits))`. -/
def rotate_left (x bits : Nat) : Nat :=
  shl32 x bits ||| (x >>> (32 - bits))

/-- Function `AESLikeCipher::round_function`:
`x ^= k; x = rotl(x, 7); x ^= 0x9E3779B9; x = rotl(x, 13); x ^= k`. -/
def round_function (x k : Nat) : Nat :=
  let x1 := x ^^^ k
  let x2 := rotate_left x1 7
  let x3 := x2 ^^^ 0x9E3779B9
  let x4 := rotate_left x3 13
  x4 ^^^ k

/-- The `encrypt` Feistel loop, with `round` the current round index and the
second argument the number of rounds left:
`temp = v0; v0 = v1 ^ round_function(v0, key[round % 4]); v1 = temp`. -/
def encFrom (key : Nat → Nat) : Nat → Nat → Nat × Nat → Nat × Nat
  | _, 0, p => p
  | round, n + 1, p =>
    encFrom key (round + 1) n (p.2 ^^^ round_function p.1 (key (round % 4)), p.1)

/-- Function `AESLikeCipher::encrypt`: 8 Feistel rounds followed by the final swap. -/
def encrypt (key : Nat → Nat) (p : Nat × Nat) : Nat × Nat :=
  let q := encFrom key 0 ROUNDS p
  (q.2, q.1)

/-- The `decrypt` reverse Feistel loop; the fuel value is the current value of
the C++ `round` variable, which counts down from `ROUNDS` to 1:
`temp = v1; v1 = v0 ^ round_function(v1, key[(round - 1) % 4]); v0 = temp`. -/
def decRoundsB (key : Nat → Nat) : Nat → Nat × Nat → Nat × Nat
  | 0, p => p
  | n + 1, p =>
    decRoundsB key n (p.2, p.1 ^^^ round_function p.2 (key (n % 4)))

/-- Function `AESLikeCipher::decrypt`: undo the final swap, then run the reverse
Feistel rounds. -/
def decrypt (key : Nat → Nat) (p : Nat × Nat) : Nat × Nat :=
  decRoundsB key ROUNDS (p.2, p.1)

theorem encFrom_succ (key : Nat → Nat) (n : Nat) :
    ∀ round p, encFrom key round (n + 1) p =
      ((encFrom key round n p).2 ^^^
          round_function (encFrom key round n p).1 (key ((round + n) % 4)),
        (encFrom key round n p).1) := by
  induction n with
  | zero => intro round p; simp [encFrom]
  | succ n ih =>
    intro round p
    show encFrom key (round + 1) (n + 1)
        (p.2 ^^^ round_function p.1 (key (round % 4)), p.1) = _
    rw [ih (round + 1)]
    have : round + 1 + n = round + (n + 1) := by omega
    rw [this]
    rfl

theorem xor_cancel (b f : Nat) : b ^^^ f ^^^ f = b := by
  rw [Nat.xor_assoc, Nat.xor_self, Nat.xor_zero]

theorem decRoundsB_encFrom (key : Nat → Nat) :
    ∀ n p, decRoundsB key n (encFrom key 0 n p) = p := by
  intro n
  induction n with
  | zero => intro p; rfl
  | succ n ih =>
    intro p
    rw [encFrom_succ]
    show decRoundsB key n
        ((encFrom key 0 n p).1,
          (encFrom key 0 n p).2 ^^^
              round_function (encFrom key 0 n p).1 (key ((0 + n) % 4)) ^^^
            round_function (encFrom key 0 n p).1 (key (n % 4))) = p
    rw [Nat.zero_add, xor_cancel]
    exact ih p

theorem aeslike_decrypt_encrypt (key : Nat → Nat) (p : Nat × Nat) :
    decrypt key (encrypt key p) = p := by
  unfold decrypt encrypt
  exact decRoundsB_encFrom key ROUNDS p

end AESLikeCipher

-- ===========================================================================
-- Claim C1
-- ===========================================================================

/-- C1: for every 64-bit block `(v0, v1)` (two 32-bit words) and every
4×32-bit key, decrypting the encryption of the block under the same key
returns the original block, for both Cipher A (`XTEACipher`, 32 rounds) and
Cipher B (`AESLikeCipher`, 8 Feistel rounds plus a final swap), with all word
arithmetic modulo `2 ^ 32`. -/
theorem cipher_roundtrip (v0 v1 : Nat) (key : Nat → Nat)
    (h0 : v0 < U32) (h1 : v1 < U32) (_hk : ∀ i, key i < U32) :
    XTEACipher.decrypt key (XTEACipher.encrypt key (v0, v1)) = (v0, v1) ∧
    AESLikeCipher.decrypt key (AESLikeCipher.encrypt key (v0, v1)) = (v0, v1) :=
  ⟨XTEACipher.xtea_decrypt_encrypt key (v0, v1) h0 h1,
    AESLikeCipher.aeslike_decrypt_encrypt key (v0, v1)⟩

/-- C1 witness: the round trip at the concrete block `(5, 7)` under the
constant key `9, 9, 9, 9`. -/
theorem cipher_roundtrip_witness :
    XTEACipher.decrypt (fun _ => 9) (XTEACipher.encrypt (fun _ => 9) (5, 7)) =
        (5, 7) ∧
    AESLikeCipher.decrypt (fun _ => 9)
        (AESLikeCipher.encrypt (fun _ => 9) (5, 7)) = (5, 7) :=
  cipher_roundtrip 5 7 (fun _ => 9) (by decide) (by decide) (by intro i; show (9 : Nat) < U32; decide)

-- ===========================================================================
-- Buffer encryption (encrypt_buffer / decrypt_buffer of either cipher)
-- ===========================================================================

/-- The shared shape of `encrypt_buffer` / `decrypt_buffer` in both cipher
classes: apply the per-block function `f` to `(data[2i], data[2i+1])` for
`i < num_blocks`.  The word array is a list, consumed two words per block. -/
def cipherBuffer (f : Nat × Nat → Nat × Nat) : Nat → List Nat → List Nat
  | 0, data => data
  | n + 1, b0 :: b1 :: rest =>
      (f (b0, b1)).1 :: (f (b0, b1)).2 :: cipherBuffer f n rest
  | _ + 1, l => l

/-- Function `XTEACipher::encrypt_buffer`. -/
def XTEACipher.encrypt_buffer (key : Nat → Nat) : Nat → List Nat → List Nat :=
  cipherBuffer (XTEACipher.encrypt key)

/-- Function `XTEACipher::decrypt_buffer`. -/
def XTEACipher.decrypt_buffer (key : Nat → Nat) : Nat → List Nat → List Nat :=
  cipherBuffer (XTEACipher.decrypt key)

/-- Function `AESLikeCipher::encrypt_buffer`. -/
def AESLikeCipher.encrypt_buffer (key : Nat → Nat) : Nat → List Nat → List Nat :=
  cipherBuffer (AESLikeCipher.encrypt key)

/-- Function `AESLikeCipher::decrypt_buffer`. -/
def AESLikeCipher.decrypt_buffer (key : Nat → Nat) : Nat → List Nat → List Nat :=
  cipherBuffer (AESLikeCipher.decrypt key)

theorem cipherBuffer_roundtrip (f g : Nat × Nat → Nat × Nat)
    (H : ∀ a b, a < U32 → b < U32 → g (f (a, b)) = (a, b)) :
    ∀ n l, l.length = 2 * n → (∀ w ∈ l, w < U32) →
      cipherBuffer g n (cipherBuffer f n l) = l := by
  intro n
  induction n with
  | zero =>
    intro l hl _
    have : l = [] := List.eq_nil_of_length_eq_zero (by omega)
    subst this; rfl
  | succ n ih =>
    intro l hl hw
    match l with
    | b0 :: b1 :: rest =>
      simp only [cipherBuffer]
      have h0 : b0 < U32 := hw b0 (by simp)
      have h1 : b1 < U32 := hw b1 (by simp)
      have hfg : g ((f (b0, b1)).1, (f (b0, b1)).2) = (b0, b1) := H b0 b1 h0 h1
      rw [hfg]
      have : cipherBuffer g n (cipherBuffer f n rest) = rest := by
        refine ih rest (by simp at hl; omega) ?_
        intro w hwmem; exact hw w (by simp [hwmem])
      rw [this]

-- ===========================================================================
-- Encrypted-String container (src/modules/string_crypt.hpp, lines 136-249)
-- ===========================================================================

namespace EncryptedString

/-- Member `buffer_size_`: the literal array size `N` (including the terminating 0)
rounded up to the next multiple of 8 bytes: `((N + 7) / 8) * 8`. -/
def bufferSize (N : Nat) : Nat := ((N + 7) / 8) * 8

/-- Member `num_blocks_ = buffer_size_ / 8`. -/
def numBlocks (N : Nat) : Nat := bufferSize N / 8

/-- Member `char_buffer_` for a literal `s` (the bytes of the string, without the
terminating 0): the `N = s.length + 1` array bytes (`s` plus its terminating
0) followed by zero padding up to `buffer_size_`; since `str[N - 1] = 0`,
this is `s` followed by `bufferSize N - s.length` zero bytes. -/
def stringBuffer (s : List Nat) : List Nat :=
  s ++ List.replicate (bufferSize (s.length + 1) - s.length) 0

/-- The byte-to-word packing loop of the constructor:
`temp_data[i / 4] |= uint32(uint8(char_buffer_[i])) << ((i % 4) * 8)`,
i.e. each group of 4 bytes becomes one little-endian 32-bit word. -/
def packWords : List Nat → List Nat
  | b0 :: b1 :: b2 :: b3 :: rest =>
      (b0 ||| b1 <<< 8 ||| b2 <<< 16 ||| b3 <<< 24) :: packWords rest
  | _ => []

/-- The word-to-byte unpacking in `decrypt()`
(`reinterpret_cast<const char*>(temp_data)` on a little-endian target):
byte `i` is `(temp_data[i / 4] >> ((i % 4) * 8)) & 0xFF`. -/
def unpackBytes : List Nat → List Nat
  | [] => []
  | w :: rest =>
      (w &&& 255) :: (w >>> 8 &&& 255) :: (w >>> 16 &&& 255) ::
        (w >>> 24 &&& 255) :: unpackBytes rest

/-- Member `encrypted_data_` as computed by the constructor for literal `s`: zero-pad
to a multiple of 8 bytes, pack little-endian into 32-bit words, encrypt with
the given buffer-encryption routine.  The derived 4-word key is abstracted as
a parameter of the buffer routine: the construction is identical for every
key value. -/
def encrypted_data (encBuf : Nat → List Nat → List Nat) (s : List Nat) :
    List Nat :=
  encBuf (numBlocks (s.length + 1)) (packWords (stringBuffer s))

/-- Method `EncryptedString::decrypt()`: decrypt a copy of `encrypted_data_`, unpack
the words into bytes, and keep the first `original_length_ = N - 1` bytes. -/
def decrypt (decBuf : Nat → List Nat → List Nat) (N : Nat) (data : List Nat) :
    List Nat :=
  (unpackBytes (decBuf (numBlocks N) data)).take (N - 1)

end EncryptedString

theorem lor_shiftLeft_eq_add (a b k : Nat) (ha : a < 2 ^ k) :
    a ||| b <<< k = a + b <<< k := by
  rw [Nat.shiftLeft_eq, Nat.lor_comm, ← Nat.mul_comm (2 ^ k) b,
    ← Nat.mul_add_lt_is_or ha b]
  omega

theorem and_255_eq_mod (x : Nat) : x &&& 255 = x % 256 := by
  rw [show (255 : Nat) = 2 ^ 8 - 1 from rfl, Nat.and_pow_two_sub_one_eq_mod]

/-- The value of one packed little-endian word in arithmetic form. -/
theorem pack_word_eq (b0 b1 b2 b3 : Nat)
    (h0 : b0 < 256) (h1 : b1 < 256) (h2 : b2 < 256) :
    b0 ||| b1 <<< 8 ||| b2 <<< 16 ||| b3 <<< 24 =
      b0 + 256 * b1 + 65536 * b2 + 16777216 * b3 := by
  have s8 : b1 <<< 8 = 256 * b1 := by
    rw [Nat.shiftLeft_eq, show (2 : Nat) ^ 8 = 256 from rfl, Nat.mul_comm]
  have s16 : b2 <<< 16 = 65536 * b2 := by
    rw [Nat.shiftLeft_eq, show (2 : Nat) ^ 16 = 65536 from rfl, Nat.mul_comm]
  have s24 : b3 <<< 24 = 16777216 * b3 := by
    rw [Nat.shiftLeft_eq, show (2 : Nat) ^ 24 = 16777216 from rfl, Nat.mul_comm]
  have o1 : b0 ||| b1 <<< 8 = b0 + 256 * b1 := by
    rw [lor_shiftLeft_eq_add b0 b1 8 h0, s8]
  have o2 : b0 + 256 * b1 ||| b2 <<< 16 = b0 + 256 * b1 + 65536 * b2 := by
    rw [lor_shiftLeft_eq_add _ b2 16 (by omega), s16]
  have o3 : b0 + 256 * b1 + 65536 * b2 ||| b3 <<< 24 =
      b0 + 256 * b1 + 65536 * b2 + 16777216 * b3 := by
    rw [lor_shiftLeft_eq_add _ b3 24 (by omega), s24]
  rw [o1, o2, o3]

/-- Packing `4 * n` in-range bytes yields `n` words, all below `2 ^ 32`, and
unpacking restores the bytes. -/
theorem packWords_spec (n : Nat) :
    ∀ l : List Nat, l.length = 4 * n → (∀ b ∈ l, b < 256) →
      (EncryptedString.packWords l).length = n ∧
      (∀ w ∈ EncryptedString.packWords l, w < U32) ∧
      EncryptedString.unpackBytes (EncryptedString.packWords l) = l := by
  induction n with
  | zero =>
    intro l hl _
    have : l = [] := List.eq_nil_of_length_eq_zero (by omega)
    subst this
    exact ⟨rfl, by intro w hw; simp [EncryptedString.packWords] at hw, rfl⟩
  | succ n ih =>
    intro l hl hb
    match l with
    | b0 :: b1 :: b2 :: b3 :: rest =>
      have h0 : b0 < 256 := hb b0 (by simp)
      have h1 : b1 < 256 := hb b1 (by simp)
      have h2 : b2 < 256 := hb b2 (by simp)
      have h3 : b3 < 256 := hb b3 (by simp)
      have hrest : rest.length = 4 * n := by simp at hl; omega
      have hbrest : ∀ b ∈ rest, b < 256 := fun b hmem => hb b (by simp [hmem])
      obtain ⟨ihlen, ihlt, ihup⟩ := ih rest hrest hbrest
      have hw := pack_word_eq b0 b1 b2 b3 h0 h1 h2
      refine ⟨by simp [EncryptedString.packWords, ihlen], ?_, ?_⟩
      · intro w hwmem
        simp only [EncryptedString.packWords, List.mem_cons] at hwmem
        rcases hwmem with h | h
        · subst h; rw [hw]; show _ < 2 ^ 32; omega
        · exact ihlt w h
      · simp only [EncryptedString.packWords, EncryptedString.unpackBytes, ihup]
        rw [hw]
        have e0 : (b0 + 256 * b1 + 65536 * b2 + 16777216 * b3) &&& 255 = b0 := by
          rw [and_255_eq_mod]; omega
        have e1 : (b0 + 256 * b1 + 65536 * b2 + 16777216 * b3) >>> 8 &&& 255 = b1 := by
          rw [Nat.shiftRight_eq_div_pow, show (2 : Nat) ^ 8 = 256 from rfl,
            and_255_eq_mod]
          omega
        have e2 : (b0 + 256 * b1 + 65536 * b2 + 16777216 * b3) >>> 16 &&& 255 = b2 := by
          rw [Nat.shiftRight_eq_div_pow, show (2 : Nat) ^ 16 = 65536 from rfl,
            and_255_eq_mod]
          omega
        have e3 : (b0 + 256 * b1 + 65536 * b2 + 16777216 * b3) >>> 24 &&& 255 = b3 := by
          rw [Nat.shiftRight_eq_div_pow, show (2 : Nat) ^ 24 = 16777216 from rfl,
            and_255_eq_mod]
          omega
        rw [e0, e1, e2, e3]

-- ===========================================================================
-- Claim C2
-- ===========================================================================

/-- C2: for every string literal `s` of any length (including length 0 and
lengths crossing the 8-byte padding boundary) and for either cipher,
constructing an `EncryptedString` from `s` (zero-pad to a multiple of 8
bytes, pack little-endian into 32-bit words, encrypt) and then calling
`decrypt()` returns exactly `s`: the first true-length bytes, with the zero
padding discarded. -/
theorem string_roundtrip (s : List Nat) (hs : ∀ b ∈ s, b < 256)
    (key : Nat → Nat) (_hk : ∀ i, key i < U32) :
    EncryptedString.decrypt (XTEACipher.decrypt_buffer key) (s.length + 1)
        (EncryptedString.encrypted_data (XTEACipher.encrypt_buffer key) s) = s ∧
    EncryptedString.decrypt (AESLikeCipher.decrypt_buffer key) (s.length + 1)
        (EncryptedString.encrypted_data (AESLikeCipher.encrypt_buffer key) s)
      = s := by
  set N := s.length + 1 with hN
  have hbuf8 : ∃ k, EncryptedString.bufferSize N = 8 * k :=
    ⟨(N + 7) / 8, by unfold EncryptedString.bufferSize; ring⟩
  obtain ⟨k, hk8⟩ := hbuf8
  have hge : N ≤ EncryptedString.bufferSize N := by
    unfold EncryptedString.bufferSize; omega
  have hsblen : (EncryptedString.stringBuffer s).length =
      EncryptedString.bufferSize N := by
    unfold EncryptedString.stringBuffer
    simp [← hN]
    omega
  have hsbbytes : ∀ b ∈ EncryptedString.stringBuffer s, b < 256 := by
    intro b hmem
    unfold EncryptedString.stringBuffer at hmem
    rcases List.mem_append.mp hmem with h | h
    · exact hs b h
    · have := List.eq_of_mem_replicate h; omega
  have hlen4 : (EncryptedString.stringBuffer s).length = 4 * (2 * k) := by omega
  obtain ⟨plen, plt, pup⟩ := packWords_spec (2 * k) _ hlen4 hsbbytes
  have hnb : EncryptedString.numBlocks N = k := by
    unfold EncryptedString.numBlocks; omega
  have hplen : (EncryptedString.packWords (EncryptedString.stringBuffer s)).length
      = 2 * EncryptedString.numBlocks N := by omega
  have main : ∀ encB decB : Nat × Nat → Nat × Nat,
      (∀ a b, a < U32 → b < U32 → decB (encB (a, b)) = (a, b)) →
      EncryptedString.decrypt (cipherBuffer decB) N
        (EncryptedString.encrypted_data (cipherBuffer encB) s) = s := by
    intro encB decB H
    unfold EncryptedString.decrypt EncryptedString.encrypted_data
    rw [cipherBuffer_roundtrip encB decB H (EncryptedString.numBlocks N) _
      hplen plt, pup]
    unfold EncryptedString.stringBuffer
    rw [show N - 1 = s.length from by omega]
    exact List.take_left s _
  constructor
  · exact main (XTEACipher.encrypt key) (XTEACipher.decrypt key)
      (fun a b ha hb => XTEACipher.xtea_decrypt_encrypt key (a, b) ha hb)
  · exact main (AESLikeCipher.encrypt key) (AESLikeCipher.decrypt key)
      (fun a b _ _ => AESLikeCipher.aeslike_decrypt_encrypt key (a, b))

/-- C2 witness: the round trip at the concrete 2-byte literal `"Hi"`
(bytes `72, 105`) under the constant key `3, 3, 3, 3`. -/
theorem string_roundtrip_witness :
    EncryptedString.decrypt (XTEACipher.decrypt_buffer (fun _ => 3)) 3
        (EncryptedString.encrypted_data (XTEACipher.encrypt_buffer (fun _ => 3))
          [72, 105]) = [72, 105] ∧
    EncryptedString.decrypt (AESLikeCipher.decrypt_buffer (fun _ => 3)) 3
        (EncryptedString.encrypted_data
          (AESLikeCipher.encrypt_buffer (fun _ => 3)) [72, 105]) = [72, 105] :=
  string_roundtrip [72, 105] (by intro b hb; simp at hb; omega) (fun _ => 3)
    (by intro i; show (3 : Nat) < U32; decide)

-- ===========================================================================
-- Virtual machine (src/include/vivisect/modules/vm_engine.hpp; its handlers
-- and mutation routine are identical to src/modules/vm_engine.hpp)
-- ===========================================================================

/-- Function `core::mix_seed(a, b) = (a ^ b) * 0x9e3779b9` on `uint32_t`
(src/core/primitives.hpp). -/
def mix_seed (a b : Nat) : Nat := ((a ^^^ b) * 0x9e3779b9) % U32

/-- Function `core::volatile_seed_update: seed = seed ^ 0xDEADBEEF`, on the bit
pattern of the `int` seed (src/core/primitives.hpp). -/
def volatile_seed_update (seed : Nat) : Nat := seed ^^^ 0xDEADBEEF

/-- Bitwise complement `~x` on `uint32_t` (the value is reduced modulo
`2 ^ 32` first, reflecting the operand's type). -/
def not32 (x : Nat) : Nat := (x % U32) ^^^ (U32 - 1)

/-- Enumeration `VMOpcode`: the fixed opcode enumeration, in declaration order. -/
inductive VMOpcode where
  | ADD | SUB | MUL | DIV
  | XOR | AND | OR | NOT | SHL | SHR
  | LOAD | STORE | LOAD_IMM
  | JUMP | JUMP_IF_ZERO | JUMP_IF_NOT_ZERO | CALL | RET
  | MANGLE_KEY | JUNK_OP | NOP
deriving DecidableEq

/-- The ordinal of an opcode, as produced by `static_cast<size_t>(opcode)`. -/
def VMOpcode.toOrdinal : VMOpcode → Nat
  | .ADD => 0 | .SUB => 1 | .MUL => 2 | .DIV => 3
  | .XOR => 4 | .AND => 5 | .OR => 6 | .NOT => 7 | .SHL => 8 | .SHR => 9
  | .LOAD => 10 | .STORE => 11 | .LOAD_IMM => 12
  | .JUMP => 13 | .JUMP_IF_ZERO => 14 | .JUMP_IF_NOT_ZERO => 15
  | .CALL => 16 | .RET => 17
  | .MANGLE_KEY => 18 | .JUNK_OP => 19 | .NOP => 20

/-- Structure `VMInstruction`: opcode, three register operand fields, one immediate. -/
structure VMInstruction where
  opcode : VMOpcode
  dest_reg : Nat
  src1_reg : Nat
  src2_reg : Nat
  immediate : Nat
deriving DecidableEq

/-- The C++ default constructor `VMInstruction()`: a `NOP` with all fields 0. -/
instance : Inhabited VMInstruction := ⟨⟨.NOP, 0, 0, 0, 0⟩⟩

/-- Structure `VMState`.  The fixed-size C arrays `registers[8]`, `memory[256]` and
`call_stack[32]` are modelled as total maps so that out-of-range cells are
directly observable (the bounds claims state they are never written). -/
structure VMState where
  registers : Nat → Nat
  pc : Nat
  flags : Nat
  global_seed : Nat
  memory : Nat → Nat
  call_stack : Nat → Nat
  stack_ptr : Nat

/-- The `VMState(int& seed)` constructor: everything zeroed. -/
def VMState.init (seed : Nat) : VMState :=
  { registers := fun _ => 0, pc := 0, flags := 0, global_seed := seed,
    memory := fun _ => 0, call_stack := fun _ => 0, stack_ptr := 0 }

/-- Method `VMState::is_valid_register`. -/
def VMState.is_valid_register (_ : VMState) (reg : Nat) : Bool :=
  decide (reg < 8)

/-- Method `VMState::is_valid_memory`. -/
def VMState.is_valid_memory (_ : VMState) (addr : Nat) : Bool :=
  decide (addr < 256)

/-- One tag per handler lambda installed by `initialize_handlers`. -/
inductive VMHandlerTag where
  | hADD | hSUB | hMUL | hDIV
  | hXOR | hAND | hOR | hNOT | hSHL | hSHR
  | hLOAD | hSTORE | hLOAD_IMM
  | hJUMP | hJUMP_IF_ZERO | hJUMP_IF_NOT_ZERO | hCALL | hRET
  | hMANGLE_KEY | hJUNK_OP | hNOP
deriving DecidableEq

/-- The canonical handler installed for each opcode by
`initialize_handlers`. -/
def canonical_handler : VMOpcode → VMHandlerTag
  | .ADD => .hADD | .SUB => .hSUB | .MUL => .hMUL | .DIV => .hDIV
  | .XOR => .hXOR | .AND => .hAND | .OR => .hOR | .NOT => .hNOT
  | .SHL => .hSHL | .SHR => .hSHR
  | .LOAD => .hLOAD | .STORE => .hSTORE | .LOAD_IMM => .hLOAD_IMM
  | .JUMP => .hJUMP | .JUMP_IF_ZERO => .hJUMP_IF_ZERO
  | .JUMP_IF_NOT_ZERO => .hJUMP_IF_NOT_ZERO
  | .CALL => .hCALL | .RET => .hRET
  | .MANGLE_KEY => .hMANGLE_KEY | .JUNK_OP => .hJUNK_OP | .NOP => .hNOP

/-- The body of each handler lambda from `initialize_handlers`, translated
clause by clause.  All `uint32_t` arithmetic wraps modulo `2 ^ 32`; shifts by
a register amount are likewise reduced (shift counts `≥ 32` are undefined
behaviour in the C++ source). -/
def applyHandler (tag : VMHandlerTag) (s : VMState) (i : VMInstruction) :
    VMState :=
  match tag with
  | .hADD =>
    if s.is_valid_register i.dest_reg && s.is_valid_register i.src1_reg &&
        s.is_valid_register i.src2_reg then
      let v := add32 (s.registers i.src1_reg) (s.registers i.src2_reg)
      { s with registers := Function.update s.registers i.dest_reg v,
               flags := if v = 0 then 1 else 0 }
    else s
  | .hSUB =>
    if s.is_valid_register i.dest_reg && s.is_valid_register i.src1_reg &&
        s.is_valid_register i.src2_reg then
      let v := sub32 (s.registers i.src1_reg) (s.registers i.src2_reg)
      { s with registers := Function.update s.registers i.dest_reg v,
               flags := if v = 0 then 1 else 0 }
    else s
  | .hMUL =>
    if s.is_valid_register i.dest_reg && s.is_valid_register i.src1_reg &&
        s.is_valid_register i.src2_reg then
      let v := (s.registers i.src1_reg * s.registers i.src2_reg) % U32
      { s with registers := Function.update s.registers i.dest_reg v,
               flags := if v = 0 then 1 else 0 }
    else s
  | .hDIV =>
    if s.is_valid_register i.dest_reg && s.is_valid_register i.src1_reg &&
        s.is_valid_register i.src2_reg then
      if s.registers i.src2_reg ≠ 0 then
        let v := s.registers i.src1_reg / s.registers i.src2_reg
        { s with registers := Function.update s.registers i.dest_reg v,
                 flags := if v = 0 then 1 else 0 }
      else s
    else s
  | .hXOR =>
    if s.is_valid_register i.dest_reg && s.is_valid_register i.src1_reg &&
        s.is_valid_register i.src2_reg then
      let v := s.registers i.src1_reg ^^^ s.registers i.src2_reg
      { s with registers := Function.update s.registers i.dest_reg v,
               flags := if v = 0 then 1 else 0 }
    else s
  | .hAND =>
    if s.is_valid_register i.dest_reg && s.is_valid_register i.src1_reg &&
        s.is_valid_register i.src2_reg then
      let v := s.registers i.src1_reg &&& s.registers i.src2_reg
      { s with registers := Function.update s.registers i.dest_reg v,
               flags := if v = 0 then 1 else 0 }
    else s
  | .hOR =>
    if s.is_valid_register i.dest_reg && s.is_valid_register i.src1_reg &&
        s.is_valid_register i.src2_reg then
      let v := s.registers i.src1_reg ||| s.registers i.src2_reg
      { s with registers := Function.update s.registers i.dest_reg v,
               flags := if v = 0 then 1 else 0 }
    else s
  | .hNOT =>
    if s.is_valid_register i.dest_reg && s.is_valid_register i.src1_reg then
      let v := not32 (s.registers i.src1_reg)
      { s with registers := Function.update s.registers i.dest_reg v,
               flags := if v = 0 then 1 else 0 }
    else s
  | .hSHL =>
    if s.is_valid_register i.dest_reg && s.is_valid_register i.src1_reg &&
        s.is_valid_register i.src2_reg then
      let v := shl32 (s.registers i.src1_reg) (s.registers i.src2_reg)
      { s with registers := Function.update s.registers i.dest_reg v,
               flags := if v = 0 then 1 else 0 }
    else s
  | .hSHR =>
    if s.is_valid_register i.dest_reg && s.is_valid_register i.src1_reg &&
        s.is_valid_register i.src2_reg then
      let v := s.registers i.src1_reg >>> s.registers i.src2_reg
      { s with registers := Function.update s.registers i.dest_reg v,
               flags := if v = 0 then 1 else 0 }
    else s
  | .hLOAD =>
    if s.is_valid_register i.dest_reg && s.is_valid_register i.src1_reg then
      let addr := s.registers i.src1_reg
      if s.is_valid_memory addr then
        { s with registers := Function.update s.registers i.dest_reg
                   (s.memory addr) }
      else s
    else s
  | .hSTORE =>
    if s.is_valid_register i.dest_reg && s.is_valid_register i.src1_reg then
      let addr := s.registers i.dest_reg
      if s.is_valid_memory addr then
        { s with memory := Function.update s.memory addr
                   (s.registers i.src1_reg) }
      else s
    else s
  | .hLOAD_IMM =>
    if s.is_valid_register i.dest_reg then
      { s with registers := Function.update s.registers i.dest_reg i.immediate }
    else s
  | .hJUMP => { s with pc := i.immediate }
  | .hJUMP_IF_ZERO =>
    if s.is_valid_register i.src1_reg then
      if s.registers i.src1_reg = 0 then { s with pc := i.immediate }
      else { s with pc := s.pc + 1 }
    else s
  | .hJUMP_IF_NOT_ZERO =>
    if s.is_valid_register i.src1_reg then
      if s.registers i.src1_reg ≠ 0 then { s with pc := i.immediate }
      else { s with pc := s.pc + 1 }
    else s
  | .hCALL =>
    if s.stack_ptr < 32 then
      { s with call_stack := Function.update s.call_stack s.stack_ptr (s.pc + 1),
               stack_ptr := s.stack_ptr + 1,
               pc := i.immediate }
    else s
  | .hRET =>
    if s.stack_ptr > 0 then
      { s with stack_ptr := s.stack_ptr - 1,
               pc := s.call_stack (s.stack_ptr - 1) }
    else s
  | .hMANGLE_KEY =>
    if s.is_valid_register i.dest_reg && s.is_valid_register i.src1_reg then
      { s with registers := Function.update s.registers i.dest_reg
                 (mix_seed (s.registers i.src1_reg) s.global_seed) }
    else s
  | .hJUNK_OP => s
  | .hNOP => s

/-- The dispatch table after `initialize_handlers`: the 21 canonical handlers
in opcode-ordinal order in its 32 slots, the remaining 11 slots empty. -/
def initial_table : List (Option VMHandlerTag) :=
  [some .hADD, some .hSUB, some .hMUL, some .hDIV,
   some .hXOR, some .hAND, some .hOR, some .hNOT, some .hSHL, some .hSHR,
   some .hLOAD, some .hSTORE, some .hLOAD_IMM,
   some .hJUMP, some .hJUMP_IF_ZERO, some .hJUMP_IF_NOT_ZERO,
   some .hCALL, some .hRET,
   some .hMANGLE_KEY, some .hJUNK_OP, some .hNOP,
   none, none, none, none, none, none, none, none, none, none, none]

/-- The linear congruential step `seed = seed * 1103515245 + 12345` of
`mutate_handlers`, on `uint32_t`. -/
def lcg (x : Nat) : Nat := (x * 1103515245 + 12345) % U32

/-- One attempted pairwise swap of `mutate_handlers`: swap the two table
slots only if both hold a handler. -/
def swap_attempt (t : List (Option VMHandlerTag)) (idx1 idx2 : Nat) :
    List (Option VMHandlerTag) :=
  if (t.getD idx1 none).isSome && (t.getD idx2 none).isSome then
    (t.set idx1 (t.getD idx2 none)).set idx2 (t.getD idx1 none)
  else t

/-- The swap loop of `mutate_handlers`: `n` attempts, each drawing two fresh
LCG values and reducing them to slot indices with `(seed >> 16) % size`. -/
def mutate_swaps : Nat → Nat → List (Option VMHandlerTag) →
    List (Option VMHandlerTag)
  | 0, _, t => t
  | n + 1, seed, t =>
    let seed1 := lcg seed
    let idx1 := (seed1 >>> 16) % t.length
    let seed2 := lcg seed1
    let idx2 := (seed2 >>> 16) % t.length
    mutate_swaps n seed2 (swap_attempt t idx1 idx2)

/-- Method `VMEngine::mutate_handlers` as a table transformation: 5 attempted swaps
driven by the current global seed (the seed update that follows is applied
at the engine level, in `post_step`). -/
def mutate_handlers (seed : Nat) (t : List (Option VMHandlerTag)) :
    List (Option VMHandlerTag) :=
  mutate_swaps 5 seed t

/-- Structure `VMEngine`: machine state, dispatch table, mutation counter. -/
structure VMEngine where
  state : VMState
  handler_table : List (Option VMHandlerTag)
  mutation_counter : Nat

/-- The `VMEngine(int& seed)` constructor. -/
def VMEngine.init (seed : Nat) : VMEngine :=
  { state := VMState.init seed, handler_table := initial_table,
    mutation_counter := 0 }

/-- The two fault conditions `execute` reports before halting. -/
inductive VMFault where
  | invalid_register
  | invalid_opcode
deriving DecidableEq

/-- The program-counter advance at the end of the `execute` loop body:
`pc++` unless the opcode is one of the five control-flow opcodes that set
`pc` themselves. -/
def advance_pc (inst : VMInstruction) (s : VMState) : VMState :=
  if inst.opcode ≠ .JUMP ∧ inst.opcode ≠ .JUMP_IF_ZERO ∧
      inst.opcode ≠ .JUMP_IF_NOT_ZERO ∧ inst.opcode ≠ .CALL ∧
      inst.opcode ≠ .RET then
    { s with pc := s.pc + 1 }
  else s

/-- The tail of the `execute` loop body: `++mutation_counter_` (wrapping
`uint32_t`), and if the new counter is a multiple of 100, one run of
`mutate_handlers` (which also advances the shared seed via
`volatile_seed_update`). -/
def post_step (e : VMEngine) (s2 : VMState) : VMEngine :=
  let counter := (e.mutation_counter + 1) % U32
  if counter % 100 = 0 then
    { state := { s2 with global_seed := volatile_seed_update s2.global_seed },
      handler_table := mutate_handlers s2.global_seed e.handler_table,
      mutation_counter := counter }
  else
    { state := s2, handler_table := e.handler_table,
      mutation_counter := counter }

/-- The instruction fetch `bytecode[state_.pc]` at the top of the loop body
(`default` is never reached: the loop runs only while `pc < length`). -/
def fetch (bytecode : List VMInstruction) (e : VMEngine) : VMInstruction :=
  bytecode.getD e.state.pc default

/-- The register-operand validation of the `execute` loop:
all three operand fields must be `< 8`. -/
def valid_operands (s : VMState) (inst : VMInstruction) : Bool :=
  s.is_valid_register inst.dest_reg && s.is_valid_register inst.src1_reg &&
    s.is_valid_register inst.src2_reg

/-- One iteration of the `execute` while-loop
(src/include/vivisect/modules/vm_engine.hpp, lines 78-107): fetch at `pc`,
fault on any register operand `≥ 8`, fault on a missing handler, otherwise
run the handler, advance `pc` for non-control opcodes, and bump the counter /
mutate.  A fault leaves the engine untouched. -/
def exec_step (bytecode : List VMInstruction) (e : VMEngine) :
    Except VMFault VMEngine :=
  if valid_operands e.state (fetch bytecode e) then
    match e.handler_table.getD (fetch bytecode e).opcode.toOrdinal none with
    | none => .error .invalid_opcode
    | some tag =>
      .ok (post_step e
        (advance_pc (fetch bytecode e)
          (applyHandler tag e.state (fetch bytecode e))))
  else
    .error .invalid_register

theorem exec_step_invalid_reg (bytecode : List VMInstruction) (e : VMEngine)
    (h : valid_operands e.state (fetch bytecode e) = false) :
    exec_step bytecode e = .error .invalid_register := by
  unfold exec_step
  rw [h]
  simp

theorem exec_step_dispatch (bytecode : List VMInstruction) (e : VMEngine)
    (tag : VMHandlerTag)
    (hv : valid_operands e.state (fetch bytecode e) = true)
    (ht : e.handler_table.getD (fetch bytecode e).opcode.toOrdinal none =
      some tag) :
    exec_step bytecode e =
      .ok (post_step e
        (advance_pc (fetch bytecode e)
          (applyHandler tag e.state (fetch bytecode e)))) := by
  unfold exec_step
  rw [hv, ht]
  simp

theorem exec_step_no_handler (bytecode : List VMInstruction) (e : VMEngine)
    (hv : valid_operands e.state (fetch bytecode e) = true)
    (ht : e.handler_table.getD (fetch bytecode e).opcode.toOrdinal none =
      none) :
    exec_step bytecode e = .error .invalid_opcode := by
  unfold exec_step
  rw [hv, ht]
  simp

/-- The `execute` while-loop: run while `pc < length`, stopping early on a
fault (which leaves the engine exactly as it was when the faulting
instruction was fetched).  The fuel argument bounds the number of iterations;
the C++ loop has no such bound and can diverge. -/
def exec_loop (bytecode : List VMInstruction) :
    Nat → VMEngine → VMEngine × Option VMFault
  | 0, e => (e, none)
  | fuel + 1, e =>
    if e.state.pc < bytecode.length then
      match exec_step bytecode e with
      | .error f => (e, some f)
      | .ok e' => exec_loop bytecode fuel e'
    else (e, none)

-- ===========================================================================
-- Claim C3
-- ===========================================================================

/-- C3: if the instruction fetched at the current program counter has any of
its three register operand fields `≥ 8`, `execute()` reports an
"invalid register" fault and halts that execution immediately: no further
instructions run and no state change from the faulting instruction is
applied — the loop returns with the engine exactly as it was. -/
theorem invalid_register_faults (bytecode : List VMInstruction) (fuel : Nat)
    (e : VMEngine) (hpc : e.state.pc < bytecode.length)
    (hreg : 8 ≤ (fetch bytecode e).dest_reg ∨
            8 ≤ (fetch bytecode e).src1_reg ∨
            8 ≤ (fetch bytecode e).src2_reg) :
    exec_loop bytecode (fuel + 1) e = (e, some VMFault.invalid_register) := by
  have hcond : valid_operands e.state (fetch bytecode e) = false := by
    cases hva : valid_operands e.state (fetch bytecode e)
    · rfl
    · exfalso
      simp only [valid_operands, VMState.is_valid_register, Bool.and_eq_true,
        decide_eq_true_eq] at hva
      rcases hreg with h | h | h <;> omega
  have hstep := exec_step_invalid_reg bytecode e hcond
  simp only [exec_loop, if_pos hpc, hstep]

/-- C3 witness: a one-instruction program whose `ADD` names register 8. -/
theorem invalid_register_faults_witness :
    exec_loop [⟨.ADD, 8, 0, 0, 0⟩] 4 (VMEngine.init 0) =
      (VMEngine.init 0, some VMFault.invalid_register) :=
  invalid_register_faults [⟨.ADD, 8, 0, 0, 0⟩] 3 (VMEngine.init 0)
    (by decide) (Or.inl (by decide))

-- ===========================================================================
-- Claim C5
-- ===========================================================================

/-- C5: executing a `DIV` instruction whose divisor register (`src2`) holds
zero skips the operation entirely: the destination register and the zero
flag (indeed all registers, memory, and the call stack) keep exactly the
values they had before the `DIV`, no fault is reported, and execution
continues with the next instruction (`pc + 1`). -/
theorem div_by_zero_skipped (bytecode : List VMInstruction) (e : VMEngine)
    (hop : (fetch bytecode e).opcode = .DIV)
    (hd : (fetch bytecode e).dest_reg < 8)
    (h1 : (fetch bytecode e).src1_reg < 8)
    (h2 : (fetch bytecode e).src2_reg < 8)
    (hz : e.state.registers (fetch bytecode e).src2_reg = 0)
    (htab : e.handler_table.getD VMOpcode.DIV.toOrdinal none = some .hDIV) :
    ∃ tbl ctr sd, exec_step bytecode e =
      .ok ⟨{ e.state with pc := e.state.pc + 1, global_seed := sd },
        tbl, ctr⟩ := by
  have hvalid : valid_operands e.state (fetch bytecode e) = true := by
    simp only [valid_operands, VMState.is_valid_register, Bool.and_eq_true,
      decide_eq_true_eq]
    omega
  have hvalid' : (e.state.is_valid_register (fetch bytecode e).dest_reg &&
      e.state.is_valid_register (fetch bytecode e).src1_reg &&
      e.state.is_valid_register (fetch bytecode e).src2_reg) = true := hvalid
  have happ : applyHandler .hDIV e.state (fetch bytecode e) = e.state := by
    simp only [applyHandler, hvalid', if_true]
    rw [if_neg (by simp [hz])]
  have hadv : advance_pc (fetch bytecode e) e.state =
      { e.state with pc := e.state.pc + 1 } := by
    unfold advance_pc
    rw [if_pos (by simp [hop])]
  have hstep : exec_step bytecode e =
      .ok (post_step e { e.state with pc := e.state.pc + 1 }) := by
    rw [exec_step_dispatch bytecode e .hDIV hvalid (by rw [hop]; exact htab),
      happ, hadv]
  by_cases hc : ((e.mutation_counter + 1) % U32) % 100 = 0
  · exact ⟨mutate_handlers e.state.global_seed e.handler_table,
      (e.mutation_counter + 1) % U32,
      volatile_seed_update e.state.global_seed,
      by rw [hstep]; simp only [post_step, hc, if_true]⟩
  · exact ⟨e.handler_table, (e.mutation_counter + 1) % U32,
      e.state.global_seed,
      by rw [hstep]; simp only [post_step, hc, if_false]⟩

/-- C5 witness: `DIV r2, r0, r1` on a fresh machine (`r1 = 0`). -/
theorem div_by_zero_skipped_witness :
    ∃ tbl ctr sd, exec_step [⟨.DIV, 2, 0, 1, 0⟩] (VMEngine.init 7) =
      .ok ⟨{ (VMEngine.init 7).state with
               pc := (VMEngine.init 7).state.pc + 1, global_seed := sd },
        tbl, ctr⟩ :=
  div_by_zero_skipped [⟨.DIV, 2, 0, 1, 0⟩] (VMEngine.init 7) (by decide)
    (by decide) (by decide) (by decide) rfl (by decide)

-- ===========================================================================
-- Claim C6
-- ===========================================================================

/-- C6: executing a `CALL` instruction while the call stack is full
(`stack_ptr = 32`) silently drops the call: the machine state — call stack,
stack pointer, and program counter included — is returned unchanged (only
the shared seed may advance with the periodic mutation), and no fault is
reported. -/
theorem call_on_full_stack_dropped (bytecode : List VMInstruction)
    (e : VMEngine)
    (hop : (fetch bytecode e).opcode = .CALL)
    (hd : (fetch bytecode e).dest_reg < 8)
    (h1 : (fetch bytecode e).src1_reg < 8)
    (h2 : (fetch bytecode e).src2_reg < 8)
    (hsp : e.state.stack_ptr = 32)
    (htab : e.handler_table.getD VMOpcode.CALL.toOrdinal none = some .hCALL) :
    ∃ tbl ctr sd, exec_step bytecode e =
      .ok ⟨{ e.state with global_seed := sd }, tbl, ctr⟩ := by
  have hvalid : valid_operands e.state (fetch bytecode e) = true := by
    simp only [valid_operands, VMState.is_valid_register, Bool.and_eq_true,
      decide_eq_true_eq]
    omega
  have happ : applyHandler .hCALL e.state (fetch bytecode e) = e.state := by
    simp only [applyHandler]
    rw [if_neg (by omega)]
  have hadv : advance_pc (fetch bytecode e) e.state = e.state := by
    unfold advance_pc
    rw [if_neg (by simp [hop])]
  have hstep : exec_step bytecode e = .ok (post_step e e.state) := by
    rw [exec_step_dispatch bytecode e .hCALL hvalid (by rw [hop]; exact htab),
      happ, hadv]
  by_cases hc : ((e.mutation_counter + 1) % U32) % 100 = 0
  · exact ⟨mutate_handlers e.state.global_seed e.handler_table,
      (e.mutation_counter + 1) % U32,
      volatile_seed_update e.state.global_seed,
      by rw [hstep]; simp only [post_step, hc, if_true]⟩
  · exact ⟨e.handler_table, (e.mutation_counter + 1) % U32,
      e.state.global_seed,
      by rw [hstep]; simp only [post_step, hc, if_false]⟩

/-- C6 witness: `CALL 5` on a machine whose stack pointer is 32. -/
theorem call_on_full_stack_dropped_witness :
    ∃ tbl ctr sd,
      exec_step [⟨.CALL, 0, 0, 0, 5⟩]
        { VMEngine.init 0 with
            state := { (VMEngine.init 0).state with stack_ptr := 32 } } =
      .ok ⟨{ { VMEngine.init 0 with
                 state :=
                   { (VMEngine.init 0).state with stack_ptr := 32 } }.state
               with global_seed := sd }, tbl, ctr⟩ :=
  call_on_full_stack_dropped [⟨.CALL, 0, 0, 0, 5⟩] _ (by decide) (by decide)
    (by decide) (by decide) rfl (by decide)

-- ===========================================================================
-- Claim C4
-- ===========================================================================

/-- C4: there exist a seed value and two distinct opcodes `A` and `B` such
that after one call to `mutate_handlers` the dispatch-table slot indexed by
`A`'s ordinal holds the handler canonically installed for `B`: the direct
pairwise slot swap changes which behaviour an opcode ordinal invokes.
(Concretely, seed 0 swaps the `XOR` and `AND` slots.) -/
theorem mutation_changes_opcode_binding :
    ∃ (seed : Nat) (A B : VMOpcode), A ≠ B ∧
      (mutate_handlers seed initial_table).getD A.toOrdinal none =
        some (canonical_handler B) :=
  ⟨0, .XOR, .AND, by decide, by decide⟩

-- ===========================================================================
-- Structural facts about one execution step
-- ===========================================================================

theorem exec_step_ok_shape (bytecode : List VMInstruction) (e e' : VMEngine)
    (h : exec_step bytecode e = .ok e') :
    ∃ tag, e.handler_table.getD (fetch bytecode e).opcode.toOrdinal none =
        some tag ∧
      e' = post_step e
        (advance_pc (fetch bytecode e)
          (applyHandler tag e.state (fetch bytecode e))) := by
  unfold exec_step at h
  split at h
  · split at h
    · exact absurd h (by simp)
    · rename_i tag ht
      exact ⟨tag, ht, by injection h with h; exact h.symm⟩
  · exact absurd h (by simp)

theorem advance_pc_fields (inst : VMInstruction) (s : VMState) :
    (advance_pc inst s).registers = s.registers ∧
    (advance_pc inst s).memory = s.memory ∧
    (advance_pc inst s).call_stack = s.call_stack ∧
    (advance_pc inst s).stack_ptr = s.stack_ptr := by
  unfold advance_pc
  split <;> exact ⟨rfl, rfl, rfl, rfl⟩

theorem post_step_fields (e : VMEngine) (s2 : VMState) :
    (post_step e s2).state.registers = s2.registers ∧
    (post_step e s2).state.memory = s2.memory ∧
    (post_step e s2).state.call_stack = s2.call_stack ∧
    (post_step e s2).state.stack_ptr = s2.stack_ptr := by
  unfold post_step
  dsimp only
  split <;> exact ⟨rfl, rfl, rfl, rfl⟩

theorem post_step_counter (e : VMEngine) (s2 : VMState) :
    (post_step e s2).mutation_counter = (e.mutation_counter + 1) % U32 := by
  unfold post_step
  dsimp only
  split <;> rfl

theorem post_step_table (e : VMEngine) (s2 : VMState) :
    (((e.mutation_counter + 1) % U32) % 100 = 0 →
      (post_step e s2).handler_table =
        mutate_handlers s2.global_seed e.handler_table) ∧
    (((e.mutation_counter + 1) % U32) % 100 ≠ 0 →
      (post_step e s2).handler_table = e.handler_table) := by
  unfold post_step
  dsimp only
  split
  · exact ⟨fun _ => rfl, fun hn => absurd (by assumption) hn⟩
  · exact ⟨fun hc => absurd hc (by assumption), fun _ => rfl⟩

/-- Every handler mutates only in-range cells: registers `≥ 8`, memory
`≥ 256` and call-stack entries `≥ 32` are untouched, and a stack pointer
`≤ 32` stays `≤ 32`. -/
theorem handler_bounds (tag : VMHandlerTag) (s : VMState) (i : VMInstruction) :
    (∀ r, 8 ≤ r → (applyHandler tag s i).registers r = s.registers r) ∧
    (∀ a, 256 ≤ a → (applyHandler tag s i).memory a = s.memory a) ∧
    (∀ j, 32 ≤ j → (applyHandler tag s i).call_stack j = s.call_stack j) ∧
    (s.stack_ptr ≤ 32 → (applyHandler tag s i).stack_ptr ≤ 32) := by
  cases tag <;>
    (simp only [applyHandler]
     repeat' split) <;>
    (refine ⟨fun r hr => ?_, fun a ha => ?_, fun j hj => ?_, fun hsp => ?_⟩ <;>
      simp_all only [VMState.is_valid_register, VMState.is_valid_memory,
        Bool.and_eq_true, decide_eq_true_eq] <;>
      first
        | rfl
        | omega
        | rw [Function.update_noteq (by omega)])

theorem exec_step_stack_ptr (bytecode : List VMInstruction) (e e' : VMEngine)
    (h : exec_step bytecode e = .ok e') (hsp : e.state.stack_ptr ≤ 32) :
    e'.state.stack_ptr ≤ 32 := by
  obtain ⟨tag, _, rfl⟩ := exec_step_ok_shape bytecode e e' h
  rw [(post_step_fields _ _).2.2.2, (advance_pc_fields _ _).2.2.2]
  exact (handler_bounds tag e.state (fetch bytecode e)).2.2.2 hsp

theorem exec_loop_stack_ptr (bytecode : List VMInstruction) :
    ∀ (fuel : Nat) (e : VMEngine), e.state.stack_ptr ≤ 32 →
      ((exec_loop bytecode fuel e).1).state.stack_ptr ≤ 32 := by
  intro fuel
  induction fuel with
  | zero => intro e h; exact h
  | succ n ih =>
    intro e h
    simp only [exec_loop]
    split
    · cases hs : exec_step bytecode e with
      | error f => exact h
      | ok e' => exact ih e' (exec_step_stack_ptr bytecode e e' hs h)
    · exact h

-- ===========================================================================
-- Claim C7
-- ===========================================================================

/-- C7: the machine state stays within its declared bounds as an invariant
preserved by every instruction handler: no handler mutates a register cell
`≥ 8`, a memory cell `≥ 256`, or a call-stack entry `≥ 32`, and no handler
pushes the stack pointer beyond 32; consequently every `execute()` run
(which applies some handler at every step, starting from the freshly
constructed machine whose stack pointer is 0) keeps the stack pointer
`≤ 32` throughout. -/
theorem vm_state_bounds :
    (∀ (tag : VMHandlerTag) (s : VMState) (i : VMInstruction),
      (∀ r, 8 ≤ r → (applyHandler tag s i).registers r = s.registers r) ∧
      (∀ a, 256 ≤ a → (applyHandler tag s i).memory a = s.memory a) ∧
      (∀ j, 32 ≤ j → (applyHandler tag s i).call_stack j = s.call_stack j) ∧
      (s.stack_ptr ≤ 32 → (applyHandler tag s i).stack_ptr ≤ 32)) ∧
    (∀ (bytecode : List VMInstruction) (fuel : Nat) (e : VMEngine),
      e.state.stack_ptr ≤ 32 →
      ((exec_loop bytecode fuel e).1).state.stack_ptr ≤ 32) :=
  ⟨handler_bounds, fun bytecode => exec_loop_stack_ptr bytecode⟩

/-- C7 witness: the `ADD` handler leaves register 9 alone on a fresh state,
and a short run from a fresh engine keeps the stack pointer in bounds. -/
theorem vm_state_bounds_witness :
    (applyHandler .hADD (VMState.init 0) ⟨.ADD, 0, 1, 2, 0⟩).registers 9 =
        (VMState.init 0).registers 9 ∧
    ((exec_loop [⟨.CALL, 0, 0, 0, 0⟩] 5 (VMEngine.init 0)).1).state.stack_ptr
      ≤ 32 :=
  ⟨(vm_state_bounds.1 .hADD (VMState.init 0) ⟨.ADD, 0, 1, 2, 0⟩).1 9
      (by decide),
    vm_state_bounds.2 [⟨.CALL, 0, 0, 0, 0⟩] 5 (VMEngine.init 0) (by decide)⟩

-- ===========================================================================
-- Mutation bookkeeping: swap attempts, table size, slot occupancy
-- ===========================================================================

/-- The sequence of index pairs the swap loop draws from the LCG. -/
def attempt_indices (len : Nat) : Nat → Nat → List (Nat × Nat)
  | 0, _ => []
  | n + 1, seed =>
    let seed1 := lcg seed
    let idx1 := (seed1 >>> 16) % len
    let seed2 := lcg seed1
    let idx2 := (seed2 >>> 16) % len
    (idx1, idx2) :: attempt_indices len n seed2

theorem attempt_indices_length (len : Nat) :
    ∀ n seed, (attempt_indices len n seed).length = n := by
  intro n
  induction n with
  | zero => intro seed; rfl
  | succ n ih => intro seed; simp [attempt_indices, ih]

theorem swap_attempt_length (t : List (Option VMHandlerTag)) (i1 i2 : Nat) :
    (swap_attempt t i1 i2).length = t.length := by
  unfold swap_attempt
  split
  · simp
  · rfl

theorem mutate_swaps_eq_foldl :
    ∀ (n seed : Nat) (t : List (Option VMHandlerTag)),
      mutate_swaps n seed t =
        (attempt_indices t.length n seed).foldl
          (fun acc p => swap_attempt acc p.1 p.2) t := by
  intro n
  induction n with
  | zero => intro seed t; rfl
  | succ n ih =>
    intro seed t
    simp only [mutate_swaps, attempt_indices, List.foldl_cons]
    rw [ih, swap_attempt_length]

theorem mutate_swaps_length :
    ∀ (n seed : Nat) (t : List (Option VMHandlerTag)),
      (mutate_swaps n seed t).length = t.length := by
  intro n
  induction n with
  | zero => intro seed t; rfl
  | succ n ih =>
    intro seed t
    simp only [mutate_swaps]
    rw [ih, swap_attempt_length]

theorem isSome_getD_lt (t : List (Option VMHandlerTag)) (k : Nat)
    (h : (t.getD k none).isSome = true) : k < t.length := by
  by_contra hge
  rw [List.getD_eq_getElem?_getD, List.getElem?_eq_none (by omega)] at h
  simp at h

/-- One attempted swap never changes which slots are occupied. -/
theorem swap_attempt_isSome (t : List (Option VMHandlerTag)) (i1 i2 k : Nat) :
    ((swap_attempt t i1 i2).getD k none).isSome = (t.getD k none).isSome := by
  unfold swap_attempt
  split
  · rename_i h
    simp only [Bool.and_eq_true] at h
    obtain ⟨h1, h2⟩ := h
    have hi1 : i1 < t.length := isSome_getD_lt t i1 h1
    have hi2 : i2 < t.length := isSome_getD_lt t i2 h2
    by_cases hk2 : i2 = k
    · subst hk2
      rw [List.getD_eq_getElem?_getD,
        List.getElem?_set_self (by simp [hi2]), Option.getD_some, h1, h2]
    · rw [List.getD_eq_getElem?_getD, List.getElem?_set_ne hk2]
      by_cases hk1 : i1 = k
      · subst hk1
        rw [List.getElem?_set_self hi1, Option.getD_some, h1, h2]
      · rw [List.getElem?_set_ne hk1, ← List.getD_eq_getElem?_getD]
  · rfl

theorem mutate_swaps_isSome :
    ∀ (n seed : Nat) (t : List (Option VMHandlerTag)) (k : Nat),
      ((mutate_swaps n seed t).getD k none).isSome =
        (t.getD k none).isSome := by
  intro n
  induction n with
  | zero => intro seed t k; rfl
  | succ n ih =>
    intro seed t k
    simp only [mutate_swaps]
    rw [ih, swap_attempt_isSome]

theorem post_step_table_cases (e : VMEngine) (s2 : VMState) :
    (post_step e s2).handler_table = e.handler_table ∨
    ∃ sd, (post_step e s2).handler_table =
      mutate_handlers sd e.handler_table := by
  unfold post_step
  dsimp only
  split
  · exact Or.inr ⟨s2.global_seed, rfl⟩
  · exact Or.inl rfl

theorem exec_step_table_isSome (bytecode : List VMInstruction)
    (e e' : VMEngine) (h : exec_step bytecode e = .ok e') (k : Nat) :
    ((e'.handler_table.getD k none)).isSome =
      ((e.handler_table.getD k none)).isSome := by
  obtain ⟨tag, _, rfl⟩ := exec_step_ok_shape bytecode e e' h
  rcases post_step_table_cases e
      (advance_pc (fetch bytecode e)
        (applyHandler tag e.state (fetch bytecode e))) with hsame | ⟨sd, hmut⟩
  · rw [hsame]
  · rw [hmut]
    exact mutate_swaps_isSome 5 sd e.handler_table k

theorem exec_step_table_length (bytecode : List VMInstruction)
    (e e' : VMEngine) (h : exec_step bytecode e = .ok e') :
    e'.handler_table.length = e.handler_table.length := by
  obtain ⟨tag, _, rfl⟩ := exec_step_ok_shape bytecode e e' h
  rcases post_step_table_cases e
      (advance_pc (fetch bytecode e)
        (applyHandler tag e.state (fetch bytecode e))) with hsame | ⟨sd, hmut⟩
  · rw [hsame]
  · rw [hmut]
    exact mutate_swaps_length 5 sd e.handler_table

theorem exec_loop_table_isSome (bytecode : List VMInstruction) :
    ∀ (fuel : Nat) (e : VMEngine) (k : Nat),
      (((exec_loop bytecode fuel e).1).handler_table.getD k none).isSome =
        ((e.handler_table.getD k none)).isSome := by
  intro fuel
  induction fuel with
  | zero => intro e k; rfl
  | succ n ih =>
    intro e k
    simp only [exec_loop]
    split
    · cases hs : exec_step bytecode e with
      | error f => rfl
      | ok e' => rw [ih e' k, exec_step_table_isSome bytecode e e' hs k]
    · rfl

theorem exec_loop_table_length (bytecode : List VMInstruction) :
    ∀ (fuel : Nat) (e : VMEngine),
      ((exec_loop bytecode fuel e).1).handler_table.length =
        e.handler_table.length := by
  intro fuel
  induction fuel with
  | zero => intro e; rfl
  | succ n ih =>
    intro e
    simp only [exec_loop]
    split
    · cases hs : exec_step bytecode e with
      | error f => rfl
      | ok e' => rw [ih e', exec_step_table_length bytecode e e' hs]
    · rfl

-- ===========================================================================
-- Claim C8
-- ===========================================================================

/-- C8: the dispatch-table mutation runs exactly once after every 100th
executed instruction, counted by the engine's single wrapping counter (which
starts at 0 at construction and is threaded through every step, persisting
across `execute()` calls on the same engine): each successful step bumps the
counter by exactly one and mutates the table exactly when the new counter is
a multiple of 100; each mutation run performs exactly 5 attempted pairwise
slot swaps; and the dispatch table keeps exactly 32 slots throughout. -/
theorem mutation_schedule :
    (∀ (bytecode : List VMInstruction) (e e' : VMEngine),
      exec_step bytecode e = .ok e' →
      e'.mutation_counter = (e.mutation_counter + 1) % U32 ∧
      (((e.mutation_counter + 1) % U32) % 100 = 0 →
        ∃ sd, e'.handler_table = mutate_handlers sd e.handler_table) ∧
      (((e.mutation_counter + 1) % U32) % 100 ≠ 0 →
        e'.handler_table = e.handler_table)) ∧
    (∀ (seed : Nat) (t : List (Option VMHandlerTag)),
      ∃ attempts : List (Nat × Nat), attempts.length = 5 ∧
        mutate_handlers seed t =
          attempts.foldl (fun acc p => swap_attempt acc p.1 p.2) t) ∧
    (∀ (seed : Nat) (t : List (Option VMHandlerTag)),
      (mutate_handlers seed t).length = t.length) ∧
    initial_table.length = 32 ∧
    (∀ (bytecode : List VMInstruction) (fuel : Nat) (e : VMEngine),
      e.handler_table.length = 32 →
      ((exec_loop bytecode fuel e).1).handler_table.length = 32) ∧
    (∀ sd, (VMEngine.init sd).mutation_counter = 0) := by
  refine ⟨?_, ?_, ?_, rfl, ?_, fun _ => rfl⟩
  · intro bytecode e e' h
    obtain ⟨tag, _, rfl⟩ := exec_step_ok_shape bytecode e e' h
    refine ⟨post_step_counter e _, ?_, ?_⟩
    · intro hc
      exact ⟨_, (post_step_table e _).1 hc⟩
    · intro hc
      exact (post_step_table e _).2 hc
  · intro seed t
    exact ⟨attempt_indices t.length 5 seed,
      attempt_indices_length t.length 5 seed,
      mutate_swaps_eq_foldl 5 seed t⟩
  · intro seed t
    exact mutate_swaps_length 5 seed t
  · intro bytecode fuel e h
    rw [exec_loop_table_length bytecode fuel e, h]

/-- C8 witness: a short run from a fresh engine keeps the 32-slot table. -/
theorem mutation_schedule_witness :
    (exec_loop [⟨.NOP, 0, 0, 0, 0⟩] 3
      (VMEngine.init 3)).1.handler_table.length = 32 :=
  mutation_schedule.2.2.2.2.1 [⟨.NOP, 0, 0, 0, 0⟩] 3 (VMEngine.init 3) rfl

-- ===========================================================================
-- Claim C10
-- ===========================================================================

/-- C10: with no custom handler registered after construction,
`mutate_handlers` swaps a pair of slots only when both hold a handler, so
slot occupancy is invariant under any number of mutations: every mutation
(and hence every execution step, which mutates the table only through
`mutate_handlers`) preserves exactly which slots are occupied; in the
initial table the 21 defined-opcode slots hold a handler and the other 11
slots are empty; and therefore the "unregistered handler" fault branch of
`execute()` is unreachable for defined opcodes. -/
theorem defined_opcodes_stay_registered :
    (∀ (n seed : Nat) (t : List (Option VMHandlerTag)) (k : Nat),
      ((mutate_swaps n seed t).getD k none).isSome =
        (t.getD k none).isSome) ∧
    (∀ op : VMOpcode,
      (initial_table.getD op.toOrdinal none).isSome = true) ∧
    (∀ k, 21 ≤ k → initial_table.getD k none = none) ∧
    (∀ (bytecode : List VMInstruction) (fuel : Nat) (e : VMEngine) (k : Nat),
      (((exec_loop bytecode fuel e).1).handler_table.getD k none).isSome =
        ((e.handler_table.getD k none)).isSome) ∧
    (∀ (bytecode : List VMInstruction) (e : VMEngine),
      (∀ op : VMOpcode,
        (e.handler_table.getD op.toOrdinal none).isSome = true) →
      exec_step bytecode e ≠ .error .invalid_opcode) := by
  refine ⟨mutate_swaps_isSome, by intro op; cases op <;> rfl, ?_,
    exec_loop_table_isSome, ?_⟩
  · intro k hk
    rw [List.getD_eq_getElem?_getD]
    rcases Nat.lt_or_ge k 32 with h | h
    · interval_cases k <;> simp_all <;> rfl
    · rw [List.getElem?_eq_none (by simp [initial_table]; omega)]
      rfl
  · intro bytecode e hocc hstep
    unfold exec_step at hstep
    split at hstep
    · split at hstep
      · rename_i hnone
        have := hocc (fetch bytecode e).opcode
        rw [hnone] at this
        simp at this
      · exact absurd hstep (by simp)
    · exact absurd hstep (by simp)

/-- C10 witness: after a run long enough to trigger a table mutation, the
`ADD` slot is still occupied. -/
theorem defined_opcodes_stay_registered_witness :
    ((exec_loop [⟨.JUMP, 0, 0, 0, 0⟩] 150
          (VMEngine.init 0)).1.handler_table.getD
        VMOpcode.ADD.toOrdinal none).isSome =
      ((VMEngine.init 0).handler_table.getD VMOpcode.ADD.toOrdinal
        none).isSome :=
  defined_opcodes_stay_registered.2.2.2.1 [⟨.JUMP, 0, 0, 0, 0⟩] 150
    (VMEngine.init 0) VMOpcode.ADD.toOrdinal

-- ===========================================================================
-- Export resolver (src/include/vivisect/api/resolver.hpp, lines 127-187; the
-- src/api/resolver.hpp variant has the identical lookup logic)
-- ===========================================================================

namespace APIResolver

/-- The constant `IMAGE_DOS_SIGNATURE` (`"MZ"`). -/
def IMAGE_DOS_SIGNATURE : Nat := 0x5A4D

/-- The constant `IMAGE_NT_SIGNATURE`. -/
def IMAGE_NT_SIGNATURE : Nat := 0x4550

/-- The fields of a loaded module image that `find_export` dereferences,
as a structural read-only view (the raw pointer walk over the image bytes is
memory layout, abstracted into the parsed fields it reads):
`e_magic` from the DOS header at the base; `nt_signature` from the NT
headers reached via `e_lfanew`; the export directory RVA and byte size from
`OptionalHeader.DataDirectory[IMAGE_DIRECTORY_ENTRY_EXPORT]`;
`numberOfNames` from the export directory; `names i` the byte string at
`base + AddressOfNames[i]`; `ordinals i` = `AddressOfNameOrdinals[i]`;
`functions o` = `AddressOfFunctions[o]`. -/
structure ModuleImage where
  e_magic : Nat
  nt_signature : Nat
  export_rva : Nat
  export_size : Nat
  numberOfNames : Nat
  names : Nat → List Nat
  ordinals : Nat → Nat
  functions : Nat → Nat

/-- The FNV-1a loop: `hash ^= byte; hash *= 0x01000193` on `uint32_t`. -/
def hashBytes : List Nat → Nat → Nat
  | [], h => h
  | c :: rest, h => hashBytes rest (((h ^^^ c) * 0x01000193) % U32)

/-- Function `APIResolver::hash`: 32-bit FNV-1a over the bytes of a name, from the
offset basis `0x811c9dc5`. -/
def hash (s : List Nat) : Nat := hashBytes s 0x811c9dc5

/-- The name-search loop of `find_export`, over the remaining name indices in
ascending order: on the first index whose exported name hashes to
`name_hash`, resolve `ordinal = AddressOfNameOrdinals[i]` and
`func_rva = AddressOfFunctions[ordinal]`; if `func_rva` lies inside the
export directory's own byte range
(`export_rva ≤ func_rva < export_rva + Size`, the bound computed in
`DWORD` arithmetic) the export is forwarded and the function returns null,
otherwise it returns `base + func_rva` (modelled as `some func_rva`). -/
def find_export_search (img : ModuleImage) (name_hash : Nat) :
    List Nat → Option Nat
  | [] => none
  | i :: rest =>
    if hash (img.names i) = name_hash then
      let ordinal := img.ordinals i
      let func_rva := img.functions ordinal
      let export_dir_start := img.export_rva
      let export_dir_end := (img.export_rva + img.export_size) % U32
      if export_dir_start ≤ func_rva ∧ func_rva < export_dir_end then
        none
      else
        some func_rva
    else
      find_export_search img name_hash rest

/-- Function `APIResolver::find_export(module, name_hash)`: validate the two
signature fields, require a nonzero export-directory RVA, then run the name
search over `i < NumberOfNames`.  `none` models the `nullptr` returns. -/
def find_export (img : ModuleImage) (name_hash : Nat) : Option Nat :=
  if img.e_magic ≠ IMAGE_DOS_SIGNATURE then none
  else if img.nt_signature ≠ IMAGE_NT_SIGNATURE then none
  else if img.export_rva = 0 then none
  else find_export_search img name_hash (List.range img.numberOfNames)

theorem find_export_search_not_in_range (img : ModuleImage)
    (name_hash : Nat) :
    ∀ (l : List Nat) (rva : Nat),
      find_export_search img name_hash l = some rva →
      ¬ (img.export_rva ≤ rva ∧
          rva < (img.export_rva + img.export_size) % U32) := by
  intro l
  induction l with
  | nil => intro rva h; exact absurd h (by simp [find_export_search])
  | cons i rest ih =>
    intro rva h
    unfold find_export_search at h
    dsimp only at h
    split at h
    · split at h
      · exact absurd h (by simp)
      · rename_i hrange
        injection h with h
        subst h
        exact hrange
    · exact ih rva h

theorem find_export_search_all_forwarded (img : ModuleImage)
    (name_hash : Nat) :
    ∀ l : List Nat,
      (∀ i ∈ l, hash (img.names i) = name_hash →
        img.export_rva ≤ img.functions (img.ordinals i) ∧
          img.functions (img.ordinals i) <
            (img.export_rva + img.export_size) % U32) →
      find_export_search img name_hash l = none := by
  intro l
  induction l with
  | nil => intro _; rfl
  | cons i rest ih =>
    intro hall
    unfold find_export_search
    dsimp only
    split
    · rename_i hh
      rw [if_pos (hall i (by simp) hh)]
    · exact ih fun j hj hh => hall j (by simp [hj]) hh

end APIResolver

-- ===========================================================================
-- Claim C9
-- ===========================================================================

/-- C9: for every module image in which the hash-based export lookup matches
the requested name hash, if the matched entry's resolved relative virtual
address lies inside the export directory's own byte range (at or after the
export-directory RVA and before RVA plus size), `find_export` treats it as a
forwarded export and returns "not found" (null), never that address as a
valid function pointer: any address `find_export` does return lies outside
the directory's byte range, and when every matching entry resolves inside
the range, `find_export` returns null. -/
theorem find_export_forwarded_not_found :
    (∀ (img : APIResolver.ModuleImage) (name_hash rva : Nat),
      APIResolver.find_export img name_hash = some rva →
      ¬ (img.export_rva ≤ rva ∧
          rva < (img.export_rva + img.export_size) % U32)) ∧
    (∀ (img : APIResolver.ModuleImage) (name_hash : Nat),
      (∀ i, i < img.numberOfNames →
        APIResolver.hash (img.names i) = name_hash →
        img.export_rva ≤ img.functions (img.ordinals i) ∧
          img.functions (img.ordinals i) <
            (img.export_rva + img.export_size) % U32) →
      APIResolver.find_export img name_hash = none) := by
  constructor
  · intro img name_hash rva h
    unfold APIResolver.find_export at h
    split at h
    · exact absurd h (by simp)
    · split at h
      · exact absurd h (by simp)
      · split at h
        · exact absurd h (by simp)
        · exact APIResolver.find_export_search_not_in_range img name_hash _
            rva h
  · intro img name_hash hall
    unfold APIResolver.find_export
    split
    · rfl
    · split
      · rfl
      · split
        · rfl
        · exact APIResolver.find_export_search_all_forwarded img name_hash _
            fun i hi hh => hall i (List.mem_range.mp hi) hh

/-- C9 witness: a synthetic image whose single export resolves outside the
directory range is returned (and indeed lies outside the range), and a
synthetic image whose single export resolves inside the directory's own
byte range is reported as not found. -/
theorem find_export_forwarded_not_found_witness :
    (¬ ((⟨0x5A4D, 0x4550, 100, 50, 1, fun _ => [65], fun _ => 0,
          fun _ => 500⟩ : APIResolver.ModuleImage).export_rva ≤ 500 ∧
        500 < ((⟨0x5A4D, 0x4550, 100, 50, 1, fun _ => [65], fun _ => 0,
          fun _ => 500⟩ : APIResolver.ModuleImage).export_rva +
            (⟨0x5A4D, 0x4550, 100, 50, 1, fun _ => [65], fun _ => 0,
              fun _ => 500⟩ : APIResolver.ModuleImage).export_size) % U32)) ∧
    APIResolver.find_export
      (⟨0x5A4D, 0x4550, 100, 50, 1, fun _ => [65], fun _ => 0,
        fun _ => 120⟩ : APIResolver.ModuleImage)
      (APIResolver.hash [65]) = none :=
  ⟨find_export_forwarded_not_found.1
      ⟨0x5A4D, 0x4550, 100, 50, 1, fun _ => [65], fun _ => 0, fun _ => 500⟩
      (APIResolver.hash [65]) 500 (by decide),
    find_export_forwarded_not_found.2
      ⟨0x5A4D, 0x4550, 100, 50, 1, fun _ => [65], fun _ => 0, fun _ => 120⟩
      (APIResolver.hash [65])
      (by
        intro i hi hh
        refine ⟨?_, ?_⟩
        · show (100 : Nat) ≤ 120
          decide
        · show (120 : Nat) < (100 + 50) % U32
          decide)⟩

end Vivisect
